import Mathlib

/-!
Verification of the hourly statistics aggregation of
`custom_components/hildebrandglow_dcc/sensor.py`.

The embedding models:

* `HistoricalState` and `StatisticData` records (values as exact rationals,
  timestamps as whole seconds since an arbitrary epoch; the sensor data has
  minute resolution, so whole seconds lose nothing);
* `hour_block_for_hist_state`, i.e. `dt.replace(minute=0, second=0, microsecond=0)`;
* the `itertools.groupby` pass over consecutive equal hour keys (`groupby_hour`);
* the aggregation loop shared by `HistoricalSensorMixin.async_calculate_statistic_data`
  (which emits a `mean` key) and `Usage.async_calculate_statistic_data`
  (which computes the mean but omits the key), as `statsFromRuns` with a flag;
* the one-minute forward shift applied in `async_update_historical`
  (`dt = reading[0] + timedelta(minutes=1)`) as `shifted_dt`;
* `should_update` and the update gate of `async_update_historical`.
-/

/-- One historical state, `HistoricalState(state=..., dt=...)`.  The reading
value `state` is an exact rational; `dt` counts whole seconds since an
arbitrary epoch. -/
structure HistoricalState where
  state : ℚ
  dt : Nat
deriving Repr, DecidableEq

/-- One emitted statistic, `StatisticData(start=..., state=..., mean=..., sum=...)`.
The field `state` is the bucket sum and `sum` the running total; `mean = none`
models the `mean` key being absent from the emitted dict (as in the `Usage`
variant of `async_calculate_statistic_data`). -/
structure StatisticData where
  start : Nat
  state : ℚ
  mean : Option ℚ
  sum : ℚ
deriving Repr, DecidableEq

/-- Truncation of a timestamp to the top of the hour:
`dt.replace(minute=0, second=0, microsecond=0)`, in seconds. -/
def hour_block (t : Nat) : Nat := t - t % 3600

/-- The `groupby` key `hour_block_for_hist_state` of
`async_calculate_statistic_data`. -/
def hour_block_for_hist_state (h : HistoricalState) : Nat := hour_block h.dt

/-- Whether a state falls in the same hour bucket as `x`: the grouping
criterion of `itertools.groupby` with key `hour_block_for_hist_state`. -/
def sameKey (x y : HistoricalState) : Bool :=
  hour_block_for_hist_state y == hour_block_for_hist_state x

/-- Fuelled single pass of `itertools.groupby(hist_states, key=hour_block_for_hist_state)`:
splits the list into maximal consecutive runs sharing one hour key, pairing each
run with its key.  The fuel argument only makes the recursion structural; with
fuel at least the list length it is never exhausted. -/
def groupby_go : Nat → List HistoricalState → List (Nat × List HistoricalState)
  | _, [] => []
  | 0, _ :: _ => []
  | fuel + 1, x :: xs =>
    (hour_block_for_hist_state x, x :: xs.takeWhile (sameKey x)) ::
      groupby_go fuel (xs.dropWhile (sameKey x))

/-- `itertools.groupby(hist_states, key=hour_block_for_hist_state)` with each
group materialised, as in the `for dt, collection_it in itertools.groupby(...)`
loop. -/
def groupby_hour (hist_states : List HistoricalState) : List (Nat × List HistoricalState) :=
  groupby_go hist_states.length hist_states

/-- `sum([x.state for x in collection])`. -/
def runSum (collection : List HistoricalState) : ℚ :=
  (collection.map HistoricalState.state).sum

/-- The body of the aggregation loop of `async_calculate_statistic_data`,
acting on the already-grouped runs: runs with fewer than two states are
skipped (`if len(collection) < 2: continue`), otherwise the bucket sum and
mean are computed, the accumulator is advanced and one `StatisticData` is
emitted.  `withMean = true` is the `HistoricalSensorMixin` variant that puts
`mean` into the record; `withMean = false` is the `Usage` variant that omits
it. -/
def statsFromRuns (withMean : Bool) (accumulated : ℚ) :
    List (Nat × List HistoricalState) → List StatisticData
  | [] => []
  | (dt, collection) :: rest =>
    if collection.length < 2 then
      statsFromRuns withMean accumulated rest
    else
      { start := dt
        state := runSum collection
        mean := if withMean then some (runSum collection / (collection.length : ℚ)) else none
        sum := accumulated + runSum collection } ::
        statsFromRuns withMean (accumulated + runSum collection) rest

/-- `async_calculate_statistic_data(hist_states, latest=latest)`:
`accumulated = latest["sum"] if latest else 0`, group by hour, run the loop. -/
def aggregate (withMean : Bool) (latest : Option ℚ)
    (hist_states : List HistoricalState) : List StatisticData :=
  statsFromRuns withMean (latest.getD 0) (groupby_hour hist_states)

/-- `HistoricalSensorMixin.async_calculate_statistic_data` (used by `Cost`):
emits `start`, `state`, `mean` and `sum`. -/
def mixin_async_calculate_statistic_data : Option ℚ → List HistoricalState → List StatisticData :=
  aggregate true

/-- `Usage.async_calculate_statistic_data`: emits `start`, `state` and `sum`
but no `mean` key. -/
def usage_async_calculate_statistic_data : Option ℚ → List HistoricalState → List StatisticData :=
  aggregate false

/-- The runs that survive the `len(collection) < 2` guard. -/
def keptRuns (runs : List (Nat × List HistoricalState)) : List (Nat × List HistoricalState) :=
  runs.filter fun p => 2 ≤ p.2.length

/-- Running totals of a list of bucket sums starting from a prior accumulator:
entry `i` is the prior plus the sums of buckets `0..i` inclusive. -/
def runningTotals (accumulated : ℚ) : List ℚ → List ℚ
  | [] => []
  | x :: xs => (accumulated + x) :: runningTotals (accumulated + x) xs

/-- The forward shift applied in `async_update_historical` before bucketing:
`dt = reading[0] + timedelta(minutes=1)`, in seconds. -/
def shifted_dt (t : Nat) : Nat := t + 60

/-- `should_update()`: its body is `return True`, unconditionally. -/
def should_update : Bool := true

/-- The gate in `async_update_historical` once initialised: the freshly
fetched states replace the stored ones exactly when `should_update()`. -/
def update_gate (fetched stored : List HistoricalState) : List HistoricalState :=
  if should_update then fetched else stored

/-! ### Basic lemmas about the grouping pass -/

theorem dropWhile_head_false {α : Type} {p : α → Bool} :
    ∀ {l : List α} {y : α} {ys : List α}, l.dropWhile p = y :: ys → p y = false := by
  intro l
  induction l with
  | nil => intro y ys h; simp [List.dropWhile] at h
  | cons a as ih =>
    intro y ys h
    by_cases hpa : p a = true
    · rw [List.dropWhile_cons_of_pos hpa] at h
      exact ih h
    · rw [List.dropWhile_cons_of_neg hpa] at h
      injection h with h1 h2
      subst h1
      exact Bool.eq_false_iff.mpr hpa

theorem hour_block_mono {a b : Nat} (h : a ≤ b) : hour_block a ≤ hour_block b := by
  unfold hour_block
  omega

theorem groupby_go_flatten :
    ∀ (fuel : Nat) (l : List HistoricalState), l.length ≤ fuel →
      ((groupby_go fuel l).map Prod.snd).flatten = l := by
  intro fuel
  induction fuel with
  | zero =>
    intro l hl
    obtain rfl : l = [] := List.length_eq_zero.mp (Nat.le_zero.mp hl)
    simp [groupby_go]
  | succ fuel ih =>
    intro l hl
    cases l with
    | nil => simp [groupby_go]
    | cons x xs =>
      have hsub : List.Sublist (xs.dropWhile (sameKey x)) xs := List.dropWhile_sublist _
      have hlen : (xs.dropWhile (sameKey x)).length ≤ fuel := by
        have h1 := hsub.length_le
        simp at hl
        omega
      simp only [groupby_go, List.map_cons, List.flatten_cons, ih _ hlen]
      simp [List.takeWhile_append_dropWhile]

theorem groupby_hour_flatten (hs : List HistoricalState) :
    ((groupby_hour hs).map Prod.snd).flatten = hs :=
  groupby_go_flatten hs.length hs (Nat.le_refl _)

theorem groupby_go_key_mem :
    ∀ (fuel : Nat) (l : List HistoricalState) (p : Nat × List HistoricalState),
      p ∈ groupby_go fuel l → ∃ y, y ∈ l ∧ p.1 = hour_block y.dt := by
  intro fuel
  induction fuel with
  | zero =>
    intro l p hp
    cases l <;> simp [groupby_go] at hp
  | succ fuel ih =>
    intro l p hp
    cases l with
    | nil => simp [groupby_go] at hp
    | cons x xs =>
      simp only [groupby_go, List.mem_cons] at hp
      rcases hp with rfl | hp
      · exact ⟨x, List.mem_cons_self x xs, rfl⟩
      · obtain ⟨y, hy, hk⟩ := ih _ p hp
        exact ⟨y, List.mem_cons_of_mem x ((List.dropWhile_sublist _).subset hy), hk⟩

theorem groupby_go_keys_pairwise :
    ∀ (fuel : Nat) (l : List HistoricalState), l.length ≤ fuel →
      l.Pairwise (fun a b => a.dt < b.dt) →
      ((groupby_go fuel l).map Prod.fst).Pairwise (· < ·) := by
  intro fuel
  induction fuel with
  | zero =>
    intro l hl _hp
    obtain rfl : l = [] := List.length_eq_zero.mp (Nat.le_zero.mp hl)
    simp [groupby_go]
  | succ fuel ih =>
    intro l hl hp
    cases l with
    | nil => simp [groupby_go]
    | cons x xs =>
      have hx_lt : ∀ y ∈ xs, x.dt < y.dt := (List.pairwise_cons.mp hp).1
      have hxs_pair : xs.Pairwise (fun a b => a.dt < b.dt) := (List.pairwise_cons.mp hp).2
      have hrest_sub : List.Sublist (xs.dropWhile (sameKey x)) xs := List.dropWhile_sublist _
      have hrest_pair : (xs.dropWhile (sameKey x)).Pairwise (fun a b => a.dt < b.dt) :=
        hxs_pair.sublist hrest_sub
      have hlen : (xs.dropWhile (sameKey x)).length ≤ fuel := by
        have h1 := hrest_sub.length_le
        simp at hl
        omega
      have hbound : ∀ y ∈ xs.dropWhile (sameKey x), hour_block x.dt < hour_block y.dt := by
        intro y hy
        cases hrest : xs.dropWhile (sameKey x) with
        | nil => rw [hrest] at hy; cases hy
        | cons h t =>
          rw [hrest] at hy hrest_pair
          have hqh : sameKey x h = false := dropWhile_head_false hrest
          have hne : hour_block h.dt ≠ hour_block x.dt := by
            simpa [sameKey, hour_block_for_hist_state] using hqh
          have hhx : x.dt < h.dt := by
            refine hx_lt h ?_
            have : h ∈ xs.dropWhile (sameKey x) := by rw [hrest]; exact List.mem_cons_self _ _
            exact hrest_sub.subset this
          have h2 : hour_block x.dt < hour_block h.dt :=
            lt_of_le_of_ne (hour_block_mono (Nat.le_of_lt hhx)) (Ne.symm hne)
          rcases List.mem_cons.mp hy with rfl | hyt
          · exact h2
          · have hhy : h.dt < y.dt := (List.pairwise_cons.mp hrest_pair).1 y hyt
            exact lt_of_lt_of_le h2 (hour_block_mono (Nat.le_of_lt hhy))
      simp only [groupby_go, List.map_cons]
      rw [List.pairwise_cons]
      refine ⟨?_, ih _ hlen hrest_pair⟩
      intro k hk
      obtain ⟨p, hpmem, rfl⟩ := List.mem_map.mp hk
      obtain ⟨y, hy, hkey⟩ := groupby_go_key_mem fuel _ p hpmem
      rw [hkey]
      exact hbound y hy

theorem groupby_hour_keys_pairwise {hs : List HistoricalState}
    (h : hs.Pairwise (fun a b => a.dt < b.dt)) :
    ((groupby_hour hs).map Prod.fst).Pairwise (· < ·) :=
  groupby_go_keys_pairwise hs.length hs (Nat.le_refl _) h

/-! ### Lemmas about the aggregation loop -/

theorem statsFromRuns_keptRuns (w : Bool) :
    ∀ (runs : List (Nat × List HistoricalState)) (a : ℚ),
      statsFromRuns w a runs = statsFromRuns w a (keptRuns runs) := by
  intro runs
  induction runs with
  | nil => intro a; simp [keptRuns]
  | cons hd tl ih =>
    intro a
    obtain ⟨k, run⟩ := hd
    by_cases h : run.length < 2
    · have h2 : ¬ 2 ≤ run.length := Nat.not_le.mpr h
      simp [statsFromRuns, keptRuns, List.filter_cons, h, h2, ih]
    · have h2 : 2 ≤ run.length := Nat.not_lt.mp h
      simp [statsFromRuns, keptRuns, List.filter_cons, h, h2, ih]

theorem statsFromRuns_start (w : Bool) :
    ∀ (runs : List (Nat × List HistoricalState)) (a : ℚ),
      (statsFromRuns w a runs).map StatisticData.start = (keptRuns runs).map Prod.fst := by
  intro runs
  induction runs with
  | nil => intro a; simp [statsFromRuns, keptRuns]
  | cons hd tl ih =>
    intro a
    obtain ⟨k, run⟩ := hd
    by_cases h : run.length < 2
    · have h2 : ¬ 2 ≤ run.length := Nat.not_le.mpr h
      simp [statsFromRuns, keptRuns, List.filter_cons, h, h2, ih]
    · have h2 : 2 ≤ run.length := Nat.not_lt.mp h
      simp [statsFromRuns, keptRuns, List.filter_cons, h, h2, ih]

theorem statsFromRuns_state (w : Bool) :
    ∀ (runs : List (Nat × List HistoricalState)) (a : ℚ),
      (statsFromRuns w a runs).map StatisticData.state =
        (keptRuns runs).map fun p => runSum p.2 := by
  intro runs
  induction runs with
  | nil => intro a; simp [statsFromRuns, keptRuns]
  | cons hd tl ih =>
    intro a
    obtain ⟨k, run⟩ := hd
    by_cases h : run.length < 2
    · have h2 : ¬ 2 ≤ run.length := Nat.not_le.mpr h
      simp [statsFromRuns, keptRuns, List.filter_cons, h, h2, ih]
    · have h2 : 2 ≤ run.length := Nat.not_lt.mp h
      simp [statsFromRuns, keptRuns, List.filter_cons, h, h2, ih]

theorem statsFromRuns_mean (w : Bool) :
    ∀ (runs : List (Nat × List HistoricalState)) (a : ℚ),
      (statsFromRuns w a runs).map StatisticData.mean =
        (keptRuns runs).map fun p =>
          if w then some (runSum p.2 / (p.2.length : ℚ)) else none := by
  intro runs
  induction runs with
  | nil => intro a; simp [statsFromRuns, keptRuns]
  | cons hd tl ih =>
    intro a
    obtain ⟨k, run⟩ := hd
    by_cases h : run.length < 2
    · have h2 : ¬ 2 ≤ run.length := Nat.not_le.mpr h
      simp [statsFromRuns, keptRuns, List.filter_cons, h, h2, ih]
    · have h2 : 2 ≤ run.length := Nat.not_lt.mp h
      simp [statsFromRuns, keptRuns, List.filter_cons, h, h2, ih]

theorem statsFromRuns_sum (w : Bool) :
    ∀ (runs : List (Nat × List HistoricalState)) (a : ℚ),
      (statsFromRuns w a runs).map StatisticData.sum =
        runningTotals a ((keptRuns runs).map fun p => runSum p.2) := by
  intro runs
  induction runs with
  | nil => intro a; simp [statsFromRuns, keptRuns, runningTotals]
  | cons hd tl ih =>
    intro a
    obtain ⟨k, run⟩ := hd
    by_cases h : run.length < 2
    · have h2 : ¬ 2 ≤ run.length := Nat.not_le.mpr h
      simp [statsFromRuns, keptRuns, List.filter_cons, h, h2, ih]
    · have h2 : 2 ≤ run.length := Nat.not_lt.mp h
      simp [statsFromRuns, keptRuns, List.filter_cons, h, h2, ih, runningTotals]

theorem statsFromRuns_shift (w : Bool) (p : ℚ) :
    ∀ (runs : List (Nat × List HistoricalState)) (a : ℚ),
      statsFromRuns w (a + p) runs =
        (statsFromRuns w a runs).map fun s => { s with sum := s.sum + p } := by
  intro runs
  induction runs with
  | nil => intro a; simp [statsFromRuns]
  | cons hd tl ih =>
    intro a
    obtain ⟨k, run⟩ := hd
    by_cases h : run.length < 2
    · simp [statsFromRuns, h, ih]
    · have hcomm : a + p + runSum run = a + runSum run + p := add_right_comm a p (runSum run)
      simp only [statsFromRuns, if_neg h, hcomm, ih (a + runSum run), List.map_cons]

/-! ### Lemmas about running totals -/

theorem runningTotals_head? :
    ∀ (xs : List ℚ) (a : ℚ),
      (runningTotals a xs).head? = xs.head?.map fun x => a + x := by
  intro xs a
  cases xs <;> simp [runningTotals]

theorem runningTotals_le :
    ∀ (xs : List ℚ) (a : ℚ), (∀ x ∈ xs, 0 ≤ x) →
      ∀ v ∈ runningTotals a xs, a ≤ v := by
  intro xs
  induction xs with
  | nil => intro a _h v hv; simp [runningTotals] at hv
  | cons x t ih =>
    intro a h v hv
    have hx : (0 : ℚ) ≤ x := h x (List.mem_cons_self _ _)
    have hax : a ≤ a + x := le_add_of_nonneg_right hx
    rcases List.mem_cons.mp hv with rfl | hv
    · exact hax
    · exact le_trans hax (ih (a + x) (fun z hz => h z (List.mem_cons_of_mem _ hz)) v hv)

theorem runningTotals_chain :
    ∀ (xs : List ℚ) (a : ℚ), (∀ x ∈ xs, 0 ≤ x) →
      (runningTotals a xs).Chain' (· ≤ ·) := by
  intro xs
  induction xs with
  | nil => intro a _h; simp [runningTotals]
  | cons x t ih =>
    intro a h
    rw [show runningTotals a (x :: t) = (a + x) :: runningTotals (a + x) t from rfl,
      List.chain'_cons']
    constructor
    · intro y hy
      rw [runningTotals_head?] at hy
      simp only [Option.mem_def, Option.map_eq_some'] at hy
      obtain ⟨z, hz, rfl⟩ := hy
      have hzt : z ∈ t := List.mem_of_mem_head? (by simp [hz])
      exact le_add_of_nonneg_right (h z (List.mem_cons_of_mem _ hzt))
    · exact ih (a + x) fun z hz => h z (List.mem_cons_of_mem _ hz)

theorem runningTotals_getLast? :
    ∀ (xs : List ℚ) (a : ℚ), xs ≠ [] →
      (runningTotals a xs).getLast? = some (a + xs.sum) := by
  intro xs
  induction xs with
  | nil => intro a h; exact absurd rfl h
  | cons x t ih =>
    intro a _h
    cases t with
    | nil => simp [runningTotals]
    | cons y ys =>
      rw [show runningTotals a (x :: y :: ys) = (a + x) :: runningTotals (a + x) (y :: ys)
          from rfl]
      have hne : (y :: ys) ≠ ([] : List ℚ) := by simp
      have hcons : ∃ b bs, runningTotals (a + x) (y :: ys) = b :: bs :=
        ⟨(a + x) + y, runningTotals ((a + x) + y) ys, rfl⟩
      obtain ⟨b, bs, hb⟩ := hcons
      rw [hb, List.getLast?_cons_cons, ← hb, ih (a + x) hne]
      simp [add_assoc]

/-! ### Membership of run elements in the input -/

theorem mem_of_mem_groupby_run {hs : List HistoricalState}
    {p : Nat × List HistoricalState} {y : HistoricalState}
    (hp : p ∈ groupby_hour hs) (hy : y ∈ p.2) : y ∈ hs := by
  have h1 : p.2 ∈ (groupby_hour hs).map Prod.snd := List.mem_map_of_mem Prod.snd hp
  have h2 : y ∈ ((groupby_hour hs).map Prod.snd).flatten :=
    List.mem_flatten_of_mem h1 hy
  rwa [groupby_hour_flatten] at h2

theorem keptRuns_sums_nonneg {hs : List HistoricalState}
    (h : ∀ x ∈ hs, 0 ≤ x.state) :
    ∀ v ∈ (keptRuns (groupby_hour hs)).map fun p => runSum p.2, 0 ≤ v := by
  intro v hv
  obtain ⟨p, hp, rfl⟩ := List.mem_map.mp hv
  have hp2 : p ∈ groupby_hour hs := List.mem_of_mem_filter hp
  refine List.sum_nonneg ?_
  intro q hq
  obtain ⟨y, hy, rfl⟩ := List.mem_map.mp hq
  exact h y (mem_of_mem_groupby_run hp2 hy)

/-! ### Claims -/

/-- Claim C1: for every input sequence and every maximal run of two or more
consecutive states sharing the same hour-bucket key, the aggregation emits
exactly one statistic for that run, whose start is the hour key, whose bucket
sum (`state`) is the sum of the run's values, and whose running total (`sum`)
is the prior running total plus the bucket sums of all buckets emitted so far
in the call, inclusive.  The runs are exactly the groups of the `groupby`
pass (whose concatenation is the input, first conjunct); the emitted
statistics correspond one-to-one, in order, to the runs that pass the
two-reading minimum (`keptRuns`).  In particular, for the input
[(10:01, 1.0), (10:31, 3.0)] with no prior running total, the single emitted
statistic has start 10:00, bucket sum 4, mean 2 and running total 4. -/
theorem claim_C1 : ∀ (w : Bool) (latest : Option ℚ) (hs : List HistoricalState),
    ((groupby_hour hs).map Prod.snd).flatten = hs ∧
    (aggregate w latest hs).map StatisticData.start =
      (keptRuns (groupby_hour hs)).map Prod.fst ∧
    (aggregate w latest hs).map StatisticData.state =
      (keptRuns (groupby_hour hs)).map (fun p => runSum p.2) ∧
    (aggregate w latest hs).map StatisticData.sum =
      runningTotals (latest.getD 0) ((keptRuns (groupby_hour hs)).map fun p => runSum p.2) ∧
    mixin_async_calculate_statistic_data none [⟨1, 36060⟩, ⟨3, 37860⟩] =
      [⟨36000, 4, some 2, 4⟩] := by
  intro w latest hs
  refine ⟨groupby_hour_flatten hs, ?_, ?_, ?_, ?_⟩
  · simpa [aggregate] using statsFromRuns_start w (groupby_hour hs) (latest.getD 0)
  · simpa [aggregate] using statsFromRuns_state w (groupby_hour hs) (latest.getD 0)
  · simpa [aggregate] using statsFromRuns_sum w (groupby_hour hs) (latest.getD 0)
  · simp [mixin_async_calculate_statistic_data, aggregate, groupby_hour, groupby_go,
      statsFromRuns, runSum, sameKey, hour_block_for_hist_state, hour_block]
    norm_num

/-- Claim C2: a run with fewer than two states emits no statistic and
contributes nothing to the running total: the aggregation equals the
aggregation of only the kept runs (those with at least two states), with the
short runs removed before any accumulation.  In particular the single reading
input [(10:01, 1.0)] produces the empty output, for both variants. -/
theorem claim_C2 : ∀ (w : Bool) (latest : Option ℚ) (hs : List HistoricalState),
    aggregate w latest hs =
      statsFromRuns w (latest.getD 0) (keptRuns (groupby_hour hs)) ∧
    usage_async_calculate_statistic_data none [⟨1, 36060⟩] = [] ∧
    mixin_async_calculate_statistic_data none [⟨1, 36060⟩] = [] := by
  intro w latest hs
  refine ⟨?_, ?_, ?_⟩
  · simpa [aggregate] using statsFromRuns_keptRuns w (groupby_hour hs) (latest.getD 0)
  · simp [usage_async_calculate_statistic_data, aggregate, groupby_hour, groupby_go,
      statsFromRuns, sameKey, hour_block_for_hist_state, hour_block]
  · simp [mixin_async_calculate_statistic_data, aggregate, groupby_hour, groupby_go,
      statsFromRuns, sameKey, hour_block_for_hist_state, hour_block]

/-- Claim C3, counterexample: the claim says every emitted hourly statistic
includes a mean field equal to the arithmetic mean of its run.  The `Usage`
variant of `async_calculate_statistic_data` emits no mean key: on the input
[(10:01, 1.0), (10:31, 3.0)] it emits one statistic whose mean field is
absent (`none`), not the arithmetic mean 2. -/
theorem claim_C3_counterexample :
    (usage_async_calculate_statistic_data none [⟨1, 36060⟩, ⟨3, 37860⟩]).map
      StatisticData.mean = [none] ∧ (none : Option ℚ) ≠ some 2 := by
  constructor
  · simp [usage_async_calculate_statistic_data, aggregate, groupby_hour, groupby_go,
      statsFromRuns, sameKey, hour_block_for_hist_state, hour_block]
  · simp

/-- Claim C3, amended: every statistic emitted by the
`HistoricalSensorMixin` variant includes a mean equal to the arithmetic mean
of its run (its bucket sum divided by the number of readings in the run);
the `Usage` variant computes the mean but omits it from every emitted
statistic. -/
theorem claim_C3 : ∀ (latest : Option ℚ) (hs : List HistoricalState),
    (mixin_async_calculate_statistic_data latest hs).map StatisticData.mean =
      (keptRuns (groupby_hour hs)).map
        (fun p => some (runSum p.2 / (p.2.length : ℚ))) ∧
    (usage_async_calculate_statistic_data latest hs).map StatisticData.mean =
      (keptRuns (groupby_hour hs)).map (fun _ => (none : Option ℚ)) := by
  intro latest hs
  constructor
  · simpa [mixin_async_calculate_statistic_data, aggregate]
      using statsFromRuns_mean true (groupby_hour hs) (latest.getD 0)
  · simpa [usage_async_calculate_statistic_data, aggregate]
      using statsFromRuns_mean false (groupby_hour hs) (latest.getD 0)

/-- Claim C4: aggregating with prior running total p yields the same
statistics as aggregating with prior 0 (absent `latest`), except that every
emitted running total is increased by p; start, bucket sum and mean fields
are unchanged. -/
theorem claim_C4 : ∀ (w : Bool) (p : ℚ) (hs : List HistoricalState),
    aggregate w (some p) hs =
      (aggregate w none hs).map fun s => { s with sum := s.sum + p } := by
  intro w p hs
  have h := statsFromRuns_shift w p (groupby_hour hs) 0
  simpa [aggregate] using h

/-- Claim C5: if every input value is non-negative, the running totals of
one aggregation call are non-decreasing between consecutive emitted
statistics, and every emitted running total is at least the caller-supplied
prior running total. -/
theorem claim_C5 : ∀ (w : Bool) (p : ℚ) (hs : List HistoricalState),
    (∀ x ∈ hs, 0 ≤ x.state) →
    (aggregate w (some p) hs).Chain' (fun a b => a.sum ≤ b.sum) ∧
    ∀ s ∈ aggregate w (some p) hs, p ≤ s.sum := by
  intro w p hs h
  have hmap : (aggregate w (some p) hs).map StatisticData.sum =
      runningTotals p ((keptRuns (groupby_hour hs)).map fun q => runSum q.2) := by
    simpa [aggregate] using statsFromRuns_sum w (groupby_hour hs) p
  have hnn := keptRuns_sums_nonneg h
  constructor
  · have hc := runningTotals_chain ((keptRuns (groupby_hour hs)).map fun q => runSum q.2) p hnn
    rw [← hmap] at hc
    exact (List.chain'_map _).mp hc
  · intro s hsm
    have hmem : s.sum ∈ (aggregate w (some p) hs).map StatisticData.sum :=
      List.mem_map_of_mem _ hsm
    rw [hmap] at hmem
    exact runningTotals_le _ p hnn _ hmem

/-- Witness for claim C5 at the concrete non-negative input
[(10:01, 1.0), (10:31, 3.0)] with prior running total 0. -/
theorem claim_C5_witness :
    (∀ x ∈ ([⟨1, 36060⟩, ⟨3, 37860⟩] : List HistoricalState), 0 ≤ x.state) ∧
    ((aggregate true (some 0) [⟨1, 36060⟩, ⟨3, 37860⟩]).Chain'
        (fun a b => a.sum ≤ b.sum) ∧
      ∀ s ∈ aggregate true (some 0) [⟨1, 36060⟩, ⟨3, 37860⟩], (0 : ℚ) ≤ s.sum) :=
  ⟨by decide, claim_C5 true 0 [⟨1, 36060⟩, ⟨3, 37860⟩] (by decide)⟩

/-- Claim C6: for input sorted strictly ascending by timestamp, the emitted
start values are strictly increasing (hence each hour key appears at most
once, and the output is duplicate-free), and they are a sublist of the run
keys of the `groupby` pass, i.e. they appear in the order of first
appearance of each bucket key in the input. -/
theorem claim_C6 : ∀ (w : Bool) (latest : Option ℚ) (hs : List HistoricalState),
    hs.Chain' (fun a b => a.dt < b.dt) →
    ((aggregate w latest hs).map StatisticData.start).Chain' (· < ·) ∧
    ((aggregate w latest hs).map StatisticData.start).Nodup ∧
    List.Sublist ((aggregate w latest hs).map StatisticData.start)
      ((groupby_hour hs).map Prod.fst) := by
  intro w latest hs hch
  have hpw : hs.Pairwise (fun a b => a.dt < b.dt) := by
    have h1 : (hs.map HistoricalState.dt).Chain' (· < ·) := (List.chain'_map _).mpr hch
    exact (List.pairwise_map).mp (List.chain'_iff_pairwise.mp h1)
  have hkeys := groupby_hour_keys_pairwise hpw
  have hstart : (aggregate w latest hs).map StatisticData.start =
      (keptRuns (groupby_hour hs)).map Prod.fst := by
    simpa [aggregate] using statsFromRuns_start w (groupby_hour hs) (latest.getD 0)
  have hsub : List.Sublist ((keptRuns (groupby_hour hs)).map Prod.fst)
      ((groupby_hour hs).map Prod.fst) := (List.filter_sublist _).map _
  have hpws : ((aggregate w latest hs).map StatisticData.start).Pairwise (· < ·) := by
    rw [hstart]
    exact hkeys.sublist hsub
  refine ⟨List.chain'_iff_pairwise.mpr hpws, hpws.nodup, ?_⟩
  rw [hstart]
  exact hsub

/-- Witness for claim C6 at the concrete sorted input
[(10:01, 1.0), (10:31, 3.0)] with no prior running total. -/
theorem claim_C6_witness :
    ([⟨1, 36060⟩, ⟨3, 37860⟩] : List HistoricalState).Chain'
        (fun a b => a.dt < b.dt) ∧
    (((aggregate true none [⟨1, 36060⟩, ⟨3, 37860⟩]).map StatisticData.start).Chain'
        (· < ·) ∧
      ((aggregate true none [⟨1, 36060⟩, ⟨3, 37860⟩]).map StatisticData.start).Nodup ∧
      List.Sublist
        ((aggregate true none [⟨1, 36060⟩, ⟨3, 37860⟩]).map StatisticData.start)
        ((groupby_hour [⟨1, 36060⟩, ⟨3, 37860⟩]).map Prod.fst)) :=
  ⟨by simp [List.chain'_cons],
    claim_C6 true none [⟨1, 36060⟩, ⟨3, 37860⟩] (by simp [List.chain'_cons])⟩

/-- Claim C7: a reading timestamped exactly on an hour boundary is, after the
one-minute forward shift applied in `async_update_historical` and the
truncation of minutes and seconds, assigned to the bucket whose key is that
same boundary, not to the bucket of the previous hour. -/
theorem claim_C7 : ∀ t : Nat, t % 3600 = 0 → 3600 ≤ t →
    hour_block (shifted_dt t) = t ∧ hour_block (shifted_dt t) ≠ t - 3600 := by
  intro t h1 h2
  unfold hour_block shifted_dt
  omega

/-- Witness for claim C7 at 11:00:00 (39600 seconds): after the shift the
reading lands in the 11:00 bucket, not the 10:00 bucket. -/
theorem claim_C7_witness :
    39600 % 3600 = 0 ∧ 3600 ≤ 39600 ∧
    (hour_block (shifted_dt 39600) = 39600 ∧
      hour_block (shifted_dt 39600) ≠ 39600 - 3600) :=
  ⟨by decide, by decide, claim_C7 39600 (by decide) (by decide)⟩

/-- Claim C8: the aggregation is not idempotent under re-submission.  For any
input with at least one complete bucket of positive bucket sum, the first
call with prior p ends with running total p plus the total K of the complete
buckets' sums; feeding that value back as the prior of a second call over the
same input ends with running total p + 2K, counting every complete bucket
twice. -/
theorem claim_C8 : ∀ (w : Bool) (p : ℚ) (hs : List HistoricalState),
    (∃ q ∈ keptRuns (groupby_hour hs), 0 < runSum q.2) →
    (aggregate w (some p) hs).getLast?.map StatisticData.sum =
      some (p + ((keptRuns (groupby_hour hs)).map fun q => runSum q.2).sum) ∧
    (aggregate w
        (some (p + ((keptRuns (groupby_hour hs)).map fun q => runSum q.2).sum))
        hs).getLast?.map StatisticData.sum =
      some (p + 2 * ((keptRuns (groupby_hour hs)).map fun q => runSum q.2).sum) := by
  intro w p hs hex
  have hne : ((keptRuns (groupby_hour hs)).map fun q => runSum q.2) ≠ [] := by
    obtain ⟨q, hq, _⟩ := hex
    intro hcon
    have hm : runSum q.2 ∈ (keptRuns (groupby_hour hs)).map fun q => runSum q.2 :=
      List.mem_map_of_mem _ hq
    rw [hcon] at hm
    cases hm
  have h1 : ∀ a : ℚ, (aggregate w (some a) hs).getLast?.map StatisticData.sum =
      some (a + ((keptRuns (groupby_hour hs)).map fun q => runSum q.2).sum) := by
    intro a
    have hmap : (aggregate w (some a) hs).map StatisticData.sum =
        runningTotals a ((keptRuns (groupby_hour hs)).map fun q => runSum q.2) := by
      simpa [aggregate] using statsFromRuns_sum w (groupby_hour hs) a
    calc (aggregate w (some a) hs).getLast?.map StatisticData.sum
        = ((aggregate w (some a) hs).map StatisticData.sum).getLast? :=
          (List.getLast?_map _ _).symm
      _ = (runningTotals a ((keptRuns (groupby_hour hs)).map fun q => runSum q.2)).getLast? :=
          by rw [hmap]
      _ = some (a + ((keptRuns (groupby_hour hs)).map fun q => runSum q.2).sum) :=
          runningTotals_getLast? _ a hne
  refine ⟨h1 p, ?_⟩
  rw [h1 (p + ((keptRuns (groupby_hour hs)).map fun q => runSum q.2).sum)]
  congr 1
  ring

/-- Witness for claim C8 at the concrete input [(10:01, 1.0), (10:31, 3.0)]
with prior 0: the first call ends at 4 and re-submitting the same readings
with prior 4 ends at 8. -/
theorem claim_C8_witness :
    (∃ q ∈ keptRuns (groupby_hour [⟨1, 36060⟩, ⟨3, 37860⟩]), 0 < runSum q.2) ∧
    ((aggregate true (some 0) [⟨1, 36060⟩, ⟨3, 37860⟩]).getLast?.map StatisticData.sum =
      some (0 + ((keptRuns (groupby_hour [⟨1, 36060⟩, ⟨3, 37860⟩])).map
        fun q => runSum q.2).sum) ∧
    (aggregate true
        (some (0 + ((keptRuns (groupby_hour [⟨1, 36060⟩, ⟨3, 37860⟩])).map
          fun q => runSum q.2).sum))
        [⟨1, 36060⟩, ⟨3, 37860⟩]).getLast?.map StatisticData.sum =
      some (0 + 2 * ((keptRuns (groupby_hour [⟨1, 36060⟩, ⟨3, 37860⟩])).map
        fun q => runSum q.2).sum)) :=
  ⟨⟨⟨36000, [⟨1, 36060⟩, ⟨3, 37860⟩]⟩,
      by simp [keptRuns, groupby_hour, groupby_go, sameKey, hour_block_for_hist_state,
        hour_block],
      by norm_num [runSum]⟩,
    claim_C8 true 0 [⟨1, 36060⟩, ⟨3, 37860⟩]
      ⟨⟨36000, [⟨1, 36060⟩, ⟨3, 37860⟩]⟩,
        by simp [keptRuns, groupby_hour, groupby_go, sameKey, hour_block_for_hist_state,
          hour_block],
        by norm_num [runSum]⟩⟩

/-- Claim C9: the aggregation never fails on malformed input.  It is a total
function; on the empty input it returns the empty output, and on unsorted
input (here, two pairs of readings in hour 10:00 separated by a pair in hour
11:00) it returns normally, grouping by consecutive runs only, so the output
contains two statistics with the same start value 10:00. -/
theorem claim_C9 :
    (∀ (w : Bool) (latest : Option ℚ), aggregate w latest [] = []) ∧
    (mixin_async_calculate_statistic_data none
      [⟨1, 36060⟩, ⟨1, 36960⟩, ⟨2, 39660⟩, ⟨2, 39720⟩, ⟨3, 36120⟩, ⟨3, 36180⟩]).map
        StatisticData.start = [36000, 39600, 36000] := by
  constructor
  · intro w latest
    rfl
  · simp [mixin_async_calculate_statistic_data, aggregate, groupby_hour, groupby_go,
      statsFromRuns, sameKey, hour_block_for_hist_state, hour_block]

/-- Claim C10: `should_update` returns `True` on every call, unconditionally
and independently of the current time (its body is a bare `return True`
despite the docstring), so the update gate in `async_update_historical`
always adopts the freshly fetched readings. -/
theorem claim_C10 :
    should_update = true ∧
    ∀ (fetched stored : List HistoricalState), update_gate fetched stored = fetched :=
  ⟨rfl, fun _ _ => rfl⟩
